import Mathlib

/-!
Verification development for the SCIM ↔ Active Directory provisioning bridge
(`okta-scim-fastify-powershell-ad`).

The TypeScript source is shallowly embedded: JavaScript values flowing through
the SCIM layer are modelled by the inductive type `JVal` (JSON trees plus the
JavaScript `undefined` that the patch applier can place into `changedFields`);
JavaScript objects are association lists in insertion order (property reads
take the first binding, property writes overwrite in place or append, matching
object-literal / spread semantics for the distinct-key objects the code
builds); JavaScript strings are Lean strings, with index-based operations such
as `substring` acting on the character list.  The SQLite `scim_users` table is
a list of `CacheRow` and the route handlers become pure state transformers
over it, taking the outcome of the external PowerShell execution (exit code,
stderr, parsed stdout, read-back result) as an explicit environment.
-/

namespace ScimAd

/-- JSON-like JavaScript value.  `undef` models the JavaScript `undefined`
that `applyOp` can write into `changedFields` when a top-level key was
removed; parsed JSON never contains it. -/
inductive JVal where
  | null : JVal
  | undef : JVal
  | bool : Bool → JVal
  | num : Int → JVal
  | str : String → JVal
  | arr : List JVal → JVal
  | obj : List (String × JVal) → JVal
  deriving Repr

mutual

def deqJVal : (a b : JVal) → Decidable (a = b)
  | .null, .null => isTrue rfl
  | .undef, .undef => isTrue rfl
  | .bool x, .bool y =>
    match decEq x y with
    | isTrue h => isTrue (congrArg JVal.bool h)
    | isFalse h => isFalse (fun e => h (by cases e; rfl))
  | .num x, .num y =>
    match decEq x y with
    | isTrue h => isTrue (congrArg JVal.num h)
    | isFalse h => isFalse (fun e => h (by cases e; rfl))
  | .str x, .str y =>
    match decEq x y with
    | isTrue h => isTrue (congrArg JVal.str h)
    | isFalse h => isFalse (fun e => h (by cases e; rfl))
  | .arr x, .arr y =>
    match deqJList x y with
    | isTrue h => isTrue (congrArg JVal.arr h)
    | isFalse h => isFalse (fun e => h (by cases e; rfl))
  | .obj x, .obj y =>
    match deqJFields x y with
    | isTrue h => isTrue (congrArg JVal.obj h)
    | isFalse h => isFalse (fun e => h (by cases e; rfl))
  | .null, .undef => isFalse (fun h => JVal.noConfusion h)
  | .null, .bool _ => isFalse (fun h => JVal.noConfusion h)
  | .null, .num _ => isFalse (fun h => JVal.noConfusion h)
  | .null, .str _ => isFalse (fun h => JVal.noConfusion h)
  | .null, .arr _ => isFalse (fun h => JVal.noConfusion h)
  | .null, .obj _ => isFalse (fun h => JVal.noConfusion h)
  | .undef, .null => isFalse (fun h => JVal.noConfusion h)
  | .undef, .bool _ => isFalse (fun h => JVal.noConfusion h)
  | .undef, .num _ => isFalse (fun h => JVal.noConfusion h)
  | .undef, .str _ => isFalse (fun h => JVal.noConfusion h)
  | .undef, .arr _ => isFalse (fun h => JVal.noConfusion h)
  | .undef, .obj _ => isFalse (fun h => JVal.noConfusion h)
  | .bool _, .null => isFalse (fun h => JVal.noConfusion h)
  | .bool _, .undef => isFalse (fun h => JVal.noConfusion h)
  | .bool _, .num _ => isFalse (fun h => JVal.noConfusion h)
  | .bool _, .str _ => isFalse (fun h => JVal.noConfusion h)
  | .bool _, .arr _ => isFalse (fun h => JVal.noConfusion h)
  | .bool _, .obj _ => isFalse (fun h => JVal.noConfusion h)
  | .num _, .null => isFalse (fun h => JVal.noConfusion h)
  | .num _, .undef => isFalse (fun h => JVal.noConfusion h)
  | .num _, .bool _ => isFalse (fun h => JVal.noConfusion h)
  | .num _, .str _ => isFalse (fun h => JVal.noConfusion h)
  | .num _, .arr _ => isFalse (fun h => JVal.noConfusion h)
  | .num _, .obj _ => isFalse (fun h => JVal.noConfusion h)
  | .str _, .null => isFalse (fun h => JVal.noConfusion h)
  | .str _, .undef => isFalse (fun h => JVal.noConfusion h)
  | .str _, .bool _ => isFalse (fun h => JVal.noConfusion h)
  | .str _, .num _ => isFalse (fun h => JVal.noConfusion h)
  | .str _, .arr _ => isFalse (fun h => JVal.noConfusion h)
  | .str _, .obj _ => isFalse (fun h => JVal.noConfusion h)
  | .arr _, .null => isFalse (fun h => JVal.noConfusion h)
  | .arr _, .undef => isFalse (fun h => JVal.noConfusion h)
  | .arr _, .bool _ => isFalse (fun h => JVal.noConfusion h)
  | .arr _, .num _ => isFalse (fun h => JVal.noConfusion h)
  | .arr _, .str _ => isFalse (fun h => JVal.noConfusion h)
  | .arr _, .obj _ => isFalse (fun h => JVal.noConfusion h)
  | .obj _, .null => isFalse (fun h => JVal.noConfusion h)
  | .obj _, .undef => isFalse (fun h => JVal.noConfusion h)
  | .obj _, .bool _ => isFalse (fun h => JVal.noConfusion h)
  | .obj _, .num _ => isFalse (fun h => JVal.noConfusion h)
  | .obj _, .str _ => isFalse (fun h => JVal.noConfusion h)
  | .obj _, .arr _ => isFalse (fun h => JVal.noConfusion h)

def deqJList : (a b : List JVal) → Decidable (a = b)
  | [], [] => isTrue rfl
  | [], _ :: _ => isFalse (fun h => List.noConfusion h)
  | _ :: _, [] => isFalse (fun h => List.noConfusion h)
  | x :: xs, y :: ys =>
    match deqJVal x y with
    | isFalse h => isFalse (fun e => h (by cases e; rfl))
    | isTrue h1 =>
      match deqJList xs ys with
      | isTrue h2 => isTrue (by rw [h1, h2])
      | isFalse h => isFalse (fun e => h (by cases e; rfl))

def deqJFields : (a b : List (String × JVal)) → Decidable (a = b)
  | [], [] => isTrue rfl
  | [], _ :: _ => isFalse (fun h => List.noConfusion h)
  | _ :: _, [] => isFalse (fun h => List.noConfusion h)
  | (k1, v1) :: xs, (k2, v2) :: ys =>
    match decEq k1 k2 with
    | isFalse h => isFalse (fun e => h (by cases e; rfl))
    | isTrue hk =>
      match deqJVal v1 v2 with
      | isFalse h => isFalse (fun e => h (by cases e; rfl))
      | isTrue hv =>
        match deqJFields xs ys with
        | isTrue ht => isTrue (by rw [hk, hv, ht])
        | isFalse h => isFalse (fun e => h (by cases e; rfl))

end

instance : DecidableEq JVal := deqJVal

/-- A JavaScript object: association list of properties in insertion order. -/
abbrev JObj := List (String × JVal)

/-- Property read (`o[k]`): first binding wins (keys are unique in the objects
the code builds). -/
def alistGet {α : Type} (o : List (String × α)) (k : String) : Option α :=
  match o with
  | [] => none
  | (k2, v) :: rest => if k2 = k then some v else alistGet rest k

/-- Property write (`o[k] = v`): overwrite in place, else append — the
semantics of JavaScript assignment with respect to key enumeration order. -/
def alistSet {α : Type} (o : List (String × α)) (k : String) (v : α) : List (String × α) :=
  match o with
  | [] => [(k, v)]
  | (k2, v2) :: rest => if k2 = k then (k2, v) :: rest else (k2, v2) :: alistSet rest k v

/-- Property deletion (`delete o[k]`). -/
def alistDel {α : Type} (o : List (String × α)) (k : String) : List (String × α) :=
  o.filter (fun p => p.1 != k)

def objGet (o : JObj) (k : String) : Option JVal := alistGet o k

def objSet (o : JObj) (k : String) (v : JVal) : JObj := alistSet o k v

def objDel (o : JObj) (k : String) : JObj := alistDel o k

/-- `Object.assign(o, src)` / object spread `{...o, ...src}`. -/
def objAssign (o : JObj) (src : JObj) : JObj :=
  src.foldl (fun acc p => objSet acc p.1 p.2) o

/-- JavaScript truthiness. -/
def truthy : JVal → Bool
  | .null => false
  | .undef => false
  | .bool b => b
  | .num n => n != 0
  | .str s => s != ""
  | .arr _ => true
  | .obj _ => true

/-- Reads a field typed `as string | undefined` followed by a truthiness
check (`const x = u['k'] as string | undefined; if (x) ...`).  The routes
hand the mapper values of the declared `ScimUser` shape, so a non-string
value never reaches these reads; the model treats one as unset. -/
def truthyStr : Option JVal → Option String
  | some (.str s) => if s = "" then none else some s
  | _ => none

/-- Truthiness filter on an optional string (`if (x) ...` where `x : string |
undefined`). -/
def strTruthy : Option String → Option String
  | some s => if s = "" then none else some s
  | none => none

/-- Reads a field typed `as string` under `??` (nullish coalescing), with no
truthiness filtering: the empty string is kept. -/
def nullishStr : Option JVal → Option String
  | some (.str s) => some s
  | _ => none

/-- Nested property read through an optional parent (`parent?.child`, or a
plain read on a cast object).  Non-objects have no such properties. -/
def jGet (v : Option JVal) (k : String) : Option JVal :=
  match v with
  | some (.obj o) => objGet o k
  | _ => none

/-- JavaScript `a ?? b` on two nullable strings. -/
def jsNullish (a b : Option String) : Option String :=
  match a with
  | some x => some x
  | none => b

/-- `s.substring(0, n)` (JavaScript counts UTF-16 units; ASCII here). -/
def strTake (s : String) (n : Nat) : String :=
  String.mk (s.data.take n)

/-- `s.toLowerCase()` — character-wise lowering (ASCII inputs here). -/
def toLowerJs (s : String) : String :=
  String.mk (s.data.map Char.toLower)

/-- `s.trim()` — strip leading and trailing whitespace. -/
def trimJs (s : String) : String :=
  String.mk (((s.data.dropWhile Char.isWhitespace).reverse.dropWhile Char.isWhitespace).reverse)

/-- `s.includes(c)` for a single character. -/
def containsChar (s : String) (c : Char) : Bool :=
  s.data.contains c

/-- `s.split(sep)` for a one-character separator (`"".split` gives `[""]`,
as in JavaScript). -/
def splitOnChar (sep : Char) : List Char → List (List Char)
  | [] => [[]]
  | c :: rest =>
    let r := splitOnChar sep rest
    if c = sep then [] :: r
    else (c :: r.headD []) :: r.tail

/-- Contiguous-sublist test on character lists. -/
def isInfixOfCh (needle : List Char) : List Char → Bool
  | [] => needle.isEmpty
  | c :: rest => needle.isPrefixOf (c :: rest) || isInfixOfCh needle rest

/-- `s.includes(sub)` — contiguous substring test. -/
def includesStr (s sub : String) : Bool :=
  isInfixOfCh sub.data s.data

/-- `userName.split('@')[0].substring(0, 20)` — the portion before the first
`@` (the whole string when there is none), truncated to 20 characters.
Shared by the POST duplicate pre-check, the POST insert and the PUT update
(`src/routes/scim/users.ts`). -/
def samFromUserName (u : String) : String :=
  String.mk ((u.data.takeWhile (fun c => c != '@')).take 20)

/-! ### Audit-log redaction (`src/powershell.ts`, `sanitizeParams`) -/

/-- `SENSITIVE_KEYS` from `src/powershell.ts`. -/
def SENSITIVE_KEYS : List String := ["accountpassword", "password", "secret", "token"]

def isSensitiveKey (k : String) : Bool := SENSITIVE_KEYS.contains (toLowerJs k)

/-- `sanitizeParams`: rebuilds the parameter object, replacing the value of
every sensitive key (compared case-insensitively) with the fixed marker. -/
def sanitizeParams (params : JObj) : JObj :=
  params.map (fun p => (p.1, if isSensitiveKey p.1 then JVal.str "***REDACTED***" else p.2))

/-! `JSON.stringify`, as applied to the sanitized parameters when the audit
row is built in `executePowerShell`.  Key order is insertion order; object
properties holding `undefined` are dropped, `undefined` array elements
serialize as `null`. -/

def escapeJsonChar (c : Char) : String :=
  if c = '"' then "\\\"" else if c = '\\' then "\\\\" else String.mk [c]

def serializeJsonStr (s : String) : String :=
  "\"" ++ String.join (s.data.map escapeJsonChar) ++ "\""

mutual

def serializeJVal : JVal → String
  | .null => "null"
  | .undef => "null"
  | .bool b => if b then "true" else "false"
  | .num n => toString n
  | .str s => serializeJsonStr s
  | .arr l => "[" ++ serializeJList l ++ "]"
  | .obj o => "\x7b" ++ serializeJObj o ++ "\x7d"

def serializeJList : List JVal → String
  | [] => ""
  | [v] => serializeJVal v
  | v :: rest => serializeJVal v ++ "," ++ serializeJList rest

def serializeJObj : List (String × JVal) → String
  | [] => ""
  | (_k, JVal.undef) :: rest => serializeJObj rest
  | [(k, v)] => serializeJsonStr k ++ ":" ++ serializeJVal v
  | (k, v) :: rest => serializeJsonStr k ++ ":" ++ serializeJVal v ++ "," ++ serializeJObj rest

end

/-- The `parameters` column of the audit row written by `executePowerShell`:
`JSON.stringify(sanitizeParams(logMeta.params))`. -/
def auditParameters (params : JObj) : String :=
  serializeJVal (JVal.obj (sanitizeParams params))

/-! ### Error classifier (`mapPsErrorToScim`) -/

structure PsScimError where
  status : Nat
  scimType : Option String := none
  detail : String
  deriving Repr, DecidableEq

/-- `mapPsErrorToScim`: lowercase the stderr, test the substring rules top to
bottom, first match wins; `detail` is always the original stderr. -/
def mapPsErrorToScim (stderr : String) : PsScimError :=
  let msg := toLowerJs stderr
  if includesStr msg "already exists" || includesStr msg "already in use" then
    { status := 409, scimType := some "uniqueness", detail := stderr }
  else if includesStr msg "cannot find an object with identity" || includesStr msg "not found"
      || includesStr msg "no such object" then
    { status := 404, scimType := some "noTarget", detail := stderr }
  else if includesStr msg "password"
      && (includesStr msg "complexity" || includesStr msg "length" || includesStr msg "requirement") then
    { status := 400, scimType := some "invalidValue", detail := stderr }
  else if includesStr msg "access" && includesStr msg "denied" then
    { status := 403, detail := stderr }
  else if includesStr msg "invalid" || includesStr msg "bad request" then
    { status := 400, scimType := some "invalidValue", detail := stderr }
  else
    { status := 500, detail := stderr }

/-- The spec's classifier table (§4.D), as an ordered rule list where the
first matching rule wins.  Written from the spec's words, to be compared
with the source-derived `mapPsErrorToScim`. -/
def specErrorRules : List ((String → Bool) × Nat × Option String) :=
  [ (fun m => includesStr m "already exists" || includesStr m "already in use",
      409, some "uniqueness"),
    (fun m => includesStr m "cannot find an object with identity" || includesStr m "not found"
        || includesStr m "no such object",
      404, some "noTarget"),
    (fun m => includesStr m "password"
        && (includesStr m "complexity" || includesStr m "length" || includesStr m "requirement"),
      400, some "invalidValue"),
    (fun m => includesStr m "access" && includesStr m "denied",
      403, none),
    (fun m => includesStr m "invalid" || includesStr m "bad request",
      400, some "invalidValue") ]

/-- Spec-worded classifier: lowercase, scan the ordered rules, first match
wins, default 500; detail is the original stderr. -/
def mapPsErrorToScimSpec (stderr : String) : PsScimError :=
  let msg := toLowerJs stderr
  match specErrorRules.find? (fun r => r.1 msg) with
  | some r => { status := r.2.1, scimType := r.2.2, detail := stderr }
  | none => { status := 500, detail := stderr }

/-! ### Attribute mapper (`src/config/mapping.ts`) -/

/-- `AdUserParams` — a field is `none` exactly when the TypeScript object
does not carry that key (every conditional assignment in `scimToAdParams`
guards on truthiness, so an assigned key always holds a truthy value, except
`Name` which is assigned unconditionally and is modelled by its value). -/
structure AdUserParams where
  SamAccountName : Option String := none
  GivenName : Option String := none
  Surname : Option String := none
  EmailAddress : Option String := none
  DisplayName : Option String := none
  Name : Option String := none
  Enabled : Option Bool := none
  EmployeeID : Option String := none
  Path : Option String := none
  UserPrincipalName : Option String := none
  deriving Repr, DecidableEq

/-- The `emails` block of `scimToAdParams`: prefer the first element with
`primary === true`, else the first element; keep its `value` if truthy. -/
def emailsExtract (emailsVal : Option JVal) : Option String :=
  match emailsVal with
  | some (.arr l) =>
    match l with
    | [] => none
    | e0 :: _ =>
      let primary := (l.find? (fun e => jGet (some e) "primary" == some (JVal.bool true))).getD e0
      truthyStr (jGet (some primary) "value")
  | _ => none

/-- "Primary email value" of a SCIM resource — the mapped email field, read
exactly the way `scimToAdParams` reads it. -/
def primaryEmailValue (scimUser : JObj) : Option String :=
  emailsExtract (objGet scimUser "emails")

/-- `scimToAdParams(scimUser, baseOu?)` from `src/config/mapping.ts`. -/
def scimToAdParams (scimUser : JObj) (baseOu : Option String) : AdUserParams :=
  let userName := truthyStr (objGet scimUser "userName")
  let givenName := truthyStr (jGet (objGet scimUser "name") "givenName")
  let familyName := truthyStr (jGet (objGet scimUser "name") "familyName")
  let emailAddress := emailsExtract (objGet scimUser "emails")
  let displayName := truthyStr (objGet scimUser "displayName")
  let enabled : Option Bool :=
    match objGet scimUser "active" with
    | some (.bool b) => some b
    | _ => none
  let externalId := truthyStr (objGet scimUser "externalId")
  { SamAccountName := userName
    UserPrincipalName :=
      match userName with
      | some u => if containsChar u '@' then some u else none
      | none => none
    GivenName := givenName
    Surname := familyName
    EmailAddress := emailAddress
    DisplayName := displayName
    Enabled := enabled
    EmployeeID := externalId
    Name := jsNullish displayName userName
    Path := strTruthy baseOu }

/-- `mergeAdIntoScim(existing, adUser)` from `src/config/mapping.ts`.  The
directory read-back object is modelled by its recognized keys (the only ones
the function reads); each string key is guarded by truthiness, `Enabled` by a
`typeof boolean` check. -/
def mergeAdIntoScim (existing : JObj) (adUser : AdUserParams) : JObj :=
  let m1 :=
    match strTruthy adUser.SamAccountName with
    | some s => objSet existing "userName" (JVal.str s)
    | none => existing
  let m2 :=
    match strTruthy adUser.DisplayName with
    | some s => objSet m1 "displayName" (JVal.str s)
    | none => m1
  let m3 :=
    if (strTruthy adUser.GivenName).isSome || (strTruthy adUser.Surname).isSome then
      let base : JObj :=
        match objGet m2 "name" with
        | some (.obj o) => o
        | _ => []
      let withG :=
        match strTruthy adUser.GivenName with
        | some g => objSet base "givenName" (JVal.str g)
        | none => base
      let withF :=
        match strTruthy adUser.Surname with
        | some f => objSet withG "familyName" (JVal.str f)
        | none => withG
      objSet m2 "name" (JVal.obj withF)
    else m2
  let m4 :=
    match strTruthy adUser.EmailAddress with
    | some v =>
      objSet m3 "emails"
        (JVal.arr [JVal.obj [("value", JVal.str v), ("type", JVal.str "work"),
                             ("primary", JVal.bool true)]])
    | none => m3
  match adUser.Enabled with
  | some b => objSet m4 "active" (JVal.bool b)
  | none => m4

/-! ### Filter parser (`src/scim/filter-parser.ts`) -/

inductive FilterOperator where
  | eq | ne | co | sw | ew | pr | gt | ge | lt | le
  deriving Repr, DecidableEq

def opOfString (s : String) : Option FilterOperator :=
  match toLowerJs s with
  | "eq" => some .eq
  | "ne" => some .ne
  | "co" => some .co
  | "sw" => some .sw
  | "ew" => some .ew
  | "pr" => some .pr
  | "gt" => some .gt
  | "ge" => some .ge
  | "lt" => some .lt
  | "le" => some .le
  | _ => none

structure ParsedFilter where
  /-- `attribute` in the source (a Lean keyword). -/
  attrib : String
  operator : FilterOperator
  value : String
  dbColumn : String
  deriving Repr, DecidableEq

/-- `ATTRIBUTE_TO_COLUMN` — externalId aliases the primary key. -/
def attributeToColumn (attrLower : String) : Option String :=
  if attrLower = "id" then some "id"
  else if attrLower = "externalid" then some "id"
  else if attrLower = "username" then some "sam_account_name"
  else none

/-- `parseScimFilter`: the regex
`/^(\S+)\s+(eq|ne|co|sw|ew|pr|gt|ge|lt|le)\s+"([^\x22]*)"$/i` applied to the
trimmed filter, then the column lookup.  (The regex is deterministic: the
attribute is the maximal leading non-space run, the operator a two-letter
word, the value the double-quoted remainder with no inner quote.) -/
def parseScimFilter (filter : String) : Option ParsedFilter :=
  let cs := (trimJs filter).data
  let attr := cs.takeWhile (fun c => !c.isWhitespace)
  let r1 := cs.drop attr.length
  if attr.isEmpty then none
  else
    let sp1 := r1.takeWhile Char.isWhitespace
    let r2 := r1.drop sp1.length
    if sp1.isEmpty then none
    else
      match r2 with
      | c1 :: c2 :: r3 =>
        match opOfString (String.mk [c1, c2]) with
        | none => none
        | some oper =>
          let sp2 := r3.takeWhile Char.isWhitespace
          let r4 := r3.drop sp2.length
          if sp2.isEmpty then none
          else
            match r4 with
            | '"' :: r5 =>
              let v := r5.takeWhile (fun c => c != '"')
              let r6 := r5.drop v.length
              match r6 with
              | ['"'] =>
                let attrS := String.mk attr
                match attributeToColumn (toLowerJs attrS) with
                | some col =>
                  some { attrib := attrS, operator := oper,
                         value := String.mk v, dbColumn := col }
                | none => none
              | _ => none
            | _ => none
      | _ => none

/-! ### Patch applier (`src/scim/patch-applier.ts`)

The applier is embedded by its resulting values: `const updated =
{...resource}` starts from the same object value and each operation updates
it in place, so folding a pure per-operation transformer over the list yields
exactly the `updated` and `changedFields` values the code returns.  (The
code's in-place writes additionally leak through nested objects shared with
the untouched input — see the heap model further below used for that claim.)
-/

structure PatchOperation where
  op : String
  path : Option String := none
  value : JVal := JVal.null
  deriving Repr, DecidableEq

structure ApplyPatchResult where
  updated : JObj
  changedFields : JObj
  deriving Repr, DecidableEq

/-- `\w` of the JavaScript regexes: ASCII letters, digits, underscore. -/
def isWordChar (c : Char) : Bool := c.isAlphanum || c == '_'

/-- The multi-valued path regex `/^(\w+)\[([^\x5d]+)\](?:\.(\w+))?$/`:
attribute name, bracketed filter expression, optional sub-attribute.  The
regex is deterministic (each greedy class is delimited by the next literal),
so it is rendered as a token scanner. -/
def parseMvPath (path : String) : Option (String × String × Option String) :=
  let cs := path.data
  let attr := cs.takeWhile isWordChar
  let r1 := cs.drop attr.length
  if attr.isEmpty then none
  else
    match r1 with
    | '[' :: r2 =>
      let filt := r2.takeWhile (fun c => c != ']')
      let r3 := r2.drop filt.length
      if filt.isEmpty then none
      else
        match r3 with
        | ']' :: r4 =>
          match r4 with
          | [] => some (String.mk attr, String.mk filt, none)
          | '.' :: sub =>
            if sub.isEmpty then none
            else if sub.all isWordChar then
              some (String.mk attr, String.mk filt, some (String.mk sub))
            else none
          | _ => none
        | _ => none
    | _ => none

/-- The inner filter regex `/^(\w+)\s+eq\s+"?([^\x22]*)"?$/` on the trimmed
expression, shared by `matchesFilter` and `buildItemFromFilter`. -/
def parseEqFilter (filterExpr : String) : Option (String × String) :=
  let cs := (trimJs filterExpr).data
  let attr := cs.takeWhile isWordChar
  let r1 := cs.drop attr.length
  if attr.isEmpty then none
  else
    let sp1 := r1.takeWhile Char.isWhitespace
    let r2 := r1.drop sp1.length
    if sp1.isEmpty then none
    else
      match r2 with
      | 'e' :: 'q' :: r3 =>
        let sp2 := r3.takeWhile Char.isWhitespace
        let r4 := r3.drop sp2.length
        if sp2.isEmpty then none
        else
          let r5 := match r4 with
            | '"' :: t => t
            | _ => r4
          let v := r5.takeWhile (fun c => c != '"')
          let r6 := r5.drop v.length
          match r6 with
          | [] => some (String.mk attr, String.mk v)
          | ['"'] => some (String.mk attr, String.mk v)
          | _ => none
      | _ => none

mutual

/-- `String(x)` for the values the filter evaluator can meet.  (Inside
arrays JavaScript's join renders `null` as the empty string; the evaluator
never receives arrays here.) -/
def jsToString : JVal → String
  | .null => "null"
  | .undef => "undefined"
  | .bool b => if b then "true" else "false"
  | .num n => toString n
  | .str s => s
  | .arr l => jsToStringList l
  | .obj _ => "[object Object]"

def jsToStringList : List JVal → String
  | [] => ""
  | [v] => jsToString v
  | v :: rest => jsToString v ++ "," ++ jsToStringList rest

end

/-- `matchesFilter(item, filterExpr)`: `name eq "value"` with unquoted
`true`/`false` compared strictly, everything else via `String(itemVal)`. -/
def matchesFilter (item : JVal) (filterExpr : String) : Bool :=
  match parseEqFilter filterExpr with
  | none => false
  | some (attr, val) =>
    let itemVal : Option JVal :=
      match item with
      | .obj o => objGet o attr
      | _ => none
    if val = "true" then itemVal == some (JVal.bool true)
    else if val = "false" then itemVal == some (JVal.bool false)
    else (match itemVal with | some v => jsToString v | none => "undefined") = val

/-- `buildItemFromFilter`: `type eq "work"` becomes `{type: "work"}`. -/
def buildItemFromFilter (filterExpr : String) : JObj :=
  match parseEqFilter filterExpr with
  | none => []
  | some (attr, val) => [(attr, JVal.str val)]

/-- The object fields of a value (`{...v}` adds nothing for the non-object
values the applier actually meets). -/
def objFieldsOf : JVal → JObj
  | .obj o => o
  | _ => []

/-- `applyPath(resource, path, verb, value)`: returns the updated resource
value and the reported top-level key.  Mirrors the four cases of the source:
simple name, multi-valued expression, dotted depth-2 path, fallback. -/
def applyPath (resource : JObj) (path : String) (verb : String) (value : JVal) :
    JObj × String :=
  if !(containsChar path '.') && !(containsChar path '[') then
    (if verb = "remove" then objDel resource path else objSet resource path value, path)
  else
    match parseMvPath path with
    | some (attrName, filterExpr, subAttr) =>
      let arr : List JVal :=
        match objGet resource attrName with
        | some (.arr l) => l
        | _ => []
      if verb = "remove" then
        (objSet resource attrName
          (JVal.arr (arr.filter (fun item => !matchesFilter item filterExpr))), attrName)
      else
        match arr.find? (fun item => matchesFilter item filterExpr) with
        | some target =>
          let idx := arr.findIdx (fun item => matchesFilter item filterExpr)
          match subAttr with
          | some sub =>
            -- target[subAttr] = value (in place on the first matching element)
            let newTarget := JVal.obj (objSet (objFieldsOf target) sub value)
            (objSet resource attrName (JVal.arr (arr.set idx newTarget)), attrName)
          | none =>
            -- arr[idx] = { ...target, ...value }
            let merged := JVal.obj (objAssign (objFieldsOf target) (objFieldsOf value))
            (objSet resource attrName (JVal.arr (arr.set idx merged)), attrName)
        | none =>
          let newItem0 := buildItemFromFilter filterExpr
          let newItem :=
            match subAttr with
            | some sub => objSet newItem0 sub value
            | none => objAssign newItem0 (objFieldsOf value)
          (objSet resource attrName (JVal.arr (arr ++ [JVal.obj newItem])), attrName)
    | none =>
      match (splitOnChar '.' path.data).map String.mk with
      | [parent, child] =>
        let parentObj : JObj :=
          match objGet resource parent with
          | some (.obj o) => o
          | _ => []
        let newParent :=
          if verb = "remove" then objDel parentObj child else objSet parentObj child value
        (objSet resource parent (JVal.obj newParent), parent)
      | _ =>
        (if verb = "remove" then objDel resource path else objSet resource path value, path)

/-- `applyOp`: dispatch one operation onto `(updated, changedFields)`.  With
no (or an empty) path, an object value is written key-by-key; otherwise
`applyPath` runs and the affected top-level key is recorded with its
post-update value (a removed key records JavaScript `undefined`). -/
def applyOp (acc : JObj × JObj) (op : PatchOperation) : JObj × JObj :=
  let verb := toLowerJs op.op
  let noPath :=
    match op.path with
    | none => true
    | some p => p = ""
  if noPath then
    if verb = "add" || verb = "replace" then
      match op.value with
      | .obj values =>
        values.foldl (fun a kv => (objSet a.1 kv.1 kv.2, objSet a.2 kv.1 kv.2)) acc
      | _ => acc
    else acc
  else
    let p := op.path.getD ""
    let res := applyPath acc.1 p verb op.value
    if res.2 = "" then (res.1, acc.2)
    else (res.1, objSet acc.2 res.2 ((objGet res.1 res.2).getD JVal.undef))

/-- `applyPatchOps(resource, operations)` (`src/scim/patch-applier.ts`). -/
def applyPatchOps (resource : JObj) (operations : List PatchOperation) : ApplyPatchResult :=
  let r := operations.foldl applyOp (resource, [])
  { updated := r.1, changedFields := r.2 }

/-! ### Cache model and request processor (`src/routes/scim/users.ts`;
`src/backend.ts` carries the same logic)

Each handler is a pure transformer over the `scim_users` table, parameterised
by an environment holding what the outside world supplies during the request:
the PowerShell execution outcome, the optional `Get-ADUser` read-back used by
`refreshAdResource`, the freshly generated UUID and the wall-clock time.
`scim_resource` is stored as the parsed value (JSON serialization of tree
values is injective and round-trips). -/

inductive SyncStatus where
  | synced | pending | error
  deriving Repr, DecidableEq

structure CacheRow where
  id : String
  ad_object_guid : Option String := none
  sam_account_name : Option String := none
  scim_resource : JObj := []
  ad_resource : Option JObj := none
  sync_status : SyncStatus := .pending
  last_error : Option String := none
  created_at : Nat := 0
  updated_at : Nat := 0
  deriving Repr, DecidableEq

abbrev Cache := List CacheRow

/-- `db('scim_users').where({ id }).first()`. -/
def findById (c : Cache) (id : String) : Option CacheRow :=
  c.find? (fun r => r.id == id)

/-- `db('scim_users').where({ sam_account_name: sam }).first()`. -/
def findBySam (c : Cache) (sam : String) : Option CacheRow :=
  c.find? (fun r => r.sam_account_name == some sam)

/-- `db('scim_users').where({ id }).update(...)`. -/
def updateRow (c : Cache) (id : String) (f : CacheRow → CacheRow) : Cache :=
  c.map (fun r => if r.id == id then f r else r)

/-- `db('scim_users').where({ id }).delete()`. -/
def deleteRowById (c : Cache) (id : String) : Cache :=
  c.filter (fun r => r.id != id)

/-- Outcome of one PowerShell execution (`PowerShellResult`): nonzero exit
means failure, `parsed` is the JSON-parsed stdout if any. -/
structure PsExecResult where
  exitCode : Nat := 0
  stderr : String := ""
  parsed : Option JVal := none
  deriving Repr, DecidableEq

/-- Per-request environment: the external-command outcome, the optional
`Get-ADUser` read-back for `refreshAdResource` (`none` covers both a failed
read and a swallowed refresh error), `uuidv4()`, and `now()`. -/
structure PsEnv where
  psResult : PsExecResult := {}
  refreshResult : Option JObj := none
  freshId : String := ""
  t : Nat := 0
  deriving Repr, DecidableEq

inductive ScimOutcome where
  /-- 201 with the formatted row. -/
  | created (row : CacheRow)
  /-- 200 with the formatted row. -/
  | ok (row : CacheRow)
  /-- 204. -/
  | noContent
  /-- A SCIM error envelope. -/
  | err (e : PsScimError)
  deriving Repr, DecidableEq

/-- `extractObjectGuid` (`src/powershell.ts`): a non-empty string under
`ObjectGUID`, or a wrapper `{ value: "<guid>" }`. -/
def extractObjectGuid (parsed : Option JVal) : Option String :=
  match parsed with
  | some (.obj o) =>
    match objGet o "ObjectGUID" with
    | some (.str s) => if s.length > 0 then some s else none
    | some (.obj w) =>
      match objGet w "value" with
      | some (.str v) => some v
      | _ => none
    | _ => none
  | _ => none

/-- `refreshAdResource`: on a successful read-back, store `ad_resource` and
bump `updated_at`; failures are swallowed. -/
def refreshStep (c : Cache) (id : String) (env : PsEnv) : Cache :=
  match env.refreshResult with
  | some ad => updateRow c id (fun r => { r with ad_resource := some ad, updated_at := env.t })
  | none => c

/-- The POST `/Users` handler (`src/routes/scim/users.ts`, mirrored by
`PowerShellAdBackend.createUser`): validate `userName`, duplicate pre-check
on the derived sAM, run `New-ADUser`, classify a nonzero exit with no cache
write, else insert the row (`sync_status: 'synced'`, `last_error` left at its
NULL default) and refresh when a GUID was extracted. -/
def createUser (c : Cache) (user : JObj) (env : PsEnv) : ScimOutcome × Cache :=
  match truthyStr (objGet user "userName") with
  | none => (.err { status := 400, scimType := some "invalidValue",
                    detail := "userName is required." }, c)
  | some userName =>
    let sam := samFromUserName userName
    match findBySam c sam with
    | some _ => (.err { status := 409, scimType := some "uniqueness",
                        detail := "A user with this userName already exists." }, c)
    | none =>
      let userId := (nullishStr (objGet user "externalId")).getD env.freshId
      let scimResource := objSet user "id" (JVal.str userId)
      if env.psResult.exitCode != 0 then
        (.err (mapPsErrorToScim env.psResult.stderr), c)
      else
        let objectGuid := extractObjectGuid env.psResult.parsed
        let row : CacheRow :=
          { id := userId
            sam_account_name := some sam
            scim_resource := scimResource
            ad_object_guid := objectGuid
            sync_status := .synced
            last_error := none
            created_at := env.t
            updated_at := env.t }
        let c1 := c ++ [row]
        let c2 := match objectGuid with
          | some _ => refreshStep c1 userId env
          | none => c1
        (match findById c2 userId with
         | some r => .created r
         | none => .err { status := 500, detail := "row not found after insert" }, c2)

/-- The truncated stderr stored in `last_error` (`stderr.substring(0, 2000)`). -/
def truncatedStderr (env : PsEnv) : String :=
  strTake env.psResult.stderr 2000

/-- The 500 error returned when the prefetched row has no usable AD
identity (`!identity` after `ad_object_guid ?? sam_account_name`). -/
def noIdentityError : PsScimError :=
  { status := 500, detail := "Cannot identify AD account: no objectGUID or samAccountName." }

/-- The PUT `/Users/:id` handler: 404 when absent; persist the new SCIM view
with `sync_status = 'pending'`; resolve the AD identity from the prefetched
row (500 when falsy); run `Set-ADUser`; on failure mark the row
`error`/`last_error`, on success mark it `synced` with `last_error` cleared
and refresh. -/
def replaceUser (c : Cache) (id : String) (user : JObj) (env : PsEnv) :
    ScimOutcome × Cache :=
  match findById c id with
  | none => (.err { status := 404, scimType := some "noTarget",
                    detail := "User not found." }, c)
  | some row =>
    let scimResource := objSet user "id" (JVal.str id)
    let newSam :=
      match truthyStr (objGet user "userName") with
      | some u => some (samFromUserName u)
      | none => row.sam_account_name
    let c1 := updateRow c id (fun r =>
      { r with scim_resource := scimResource, sam_account_name := newSam,
               sync_status := .pending, updated_at := env.t })
    match strTruthy (jsNullish row.ad_object_guid row.sam_account_name) with
    | none => (.err (noIdentityError), c1)
    | some _identity =>
      if env.psResult.exitCode != 0 then
        let c2 := updateRow c1 id (fun r =>
          { r with sync_status := .error, last_error := some (truncatedStderr env),
                   updated_at := env.t })
        (.err (mapPsErrorToScim env.psResult.stderr), c2)
      else
        let c2 := updateRow c1 id (fun r =>
          { r with sync_status := .synced, last_error := none, updated_at := env.t })
        let c3 := refreshStep c2 id env
        (match findById c3 id with
         | some r => .ok r
         | none => .err { status := 500, detail := "row not found after update" }, c3)

/-- `{ Name: _n, Path: _p, ...setParams }` — the update params with `Name`
and `Path` destructured away. -/
def stripNameAndPath (p : AdUserParams) : AdUserParams :=
  { p with Name := none, Path := none }

/-- `Object.keys(setParams).length` after the destructuring: all remaining
keys were assigned under truthiness guards, so they are exactly the `some`
fields. -/
def setParamsCount (p : AdUserParams) : Nat :=
  [p.SamAccountName.isSome, p.GivenName.isSome, p.Surname.isSome,
   p.EmailAddress.isSome, p.DisplayName.isSome, p.Enabled.isSome,
   p.EmployeeID.isSome, p.UserPrincipalName.isSome].count true

/-- The PATCH `/Users/:id` handler: validate `Operations` non-empty; 404 when
absent; apply the patch to the stored view and persist it with `sync_status =
'pending'`; resolve the identity from the prefetched row (500 when falsy);
map only `changedFields` to update params, skip the directory call when they
strip to nothing, else run `Set-ADUser` with the same failure handling as
PUT; finally mark `synced`, clear `last_error` and refresh. -/
def patchUser (c : Cache) (id : String) (operations : List PatchOperation) (env : PsEnv) :
    ScimOutcome × Cache :=
  if operations.isEmpty then
    (.err { status := 400, scimType := some "invalidValue",
            detail := "Operations array is required and must not be empty." }, c)
  else
    match findById c id with
    | none => (.err { status := 404, scimType := some "noTarget",
                      detail := "User not found." }, c)
    | some row =>
      let res := applyPatchOps row.scim_resource operations
      let c1 := updateRow c id (fun r =>
        { r with scim_resource := objSet res.updated "id" (JVal.str id),
                 sync_status := .pending, updated_at := env.t })
      match strTruthy (jsNullish row.ad_object_guid row.sam_account_name) with
      | none => (.err (noIdentityError), c1)
      | some _identity =>
        let setParams := stripNameAndPath (scimToAdParams res.changedFields none)
        let psFailed := setParamsCount setParams > 0 && env.psResult.exitCode != 0
        if psFailed then
          let c2 := updateRow c1 id (fun r =>
            { r with sync_status := .error, last_error := some (truncatedStderr env),
                     updated_at := env.t })
          (.err (mapPsErrorToScim env.psResult.stderr), c2)
        else
          let c2 := updateRow c1 id (fun r =>
            { r with sync_status := .synced, last_error := none, updated_at := env.t })
          let c3 := refreshStep c2 id env
          (match findById c3 id with
           | some r => .ok r
           | none => .err { status := 500, detail := "row not found after update" }, c3)

/-- The DELETE `/Users/:id` handler: 404 when absent; when an identity is
known run `Remove-ADUser`, treating "cannot find" / "not found" stderr as
already gone; other failures abort before the cache row is removed. -/
def deleteUser (c : Cache) (id : String) (env : PsEnv) : ScimOutcome × Cache :=
  match findById c id with
  | none => (.err { status := 404, scimType := some "noTarget",
                    detail := "User not found." }, c)
  | some row =>
    match strTruthy (jsNullish row.ad_object_guid row.sam_account_name) with
    | none => (.noContent, deleteRowById c id)
    | some _identity =>
      if env.psResult.exitCode != 0 then
        let alreadyGone := includesStr (toLowerJs env.psResult.stderr) "cannot find"
          || includesStr (toLowerJs env.psResult.stderr) "not found"
        if alreadyGone then (.noContent, deleteRowById c id)
        else (.err (mapPsErrorToScim env.psResult.stderr), c)
      else (.noContent, deleteRowById c id)

/-! ### List operation (GET `/Users`) -/

/-- SQL `WHERE col = value` on the two filterable columns (`NULL` never
matches). -/
def rowMatchesColumn (row : CacheRow) (col v : String) : Bool :=
  if col = "id" then row.id == v
  else if col = "sam_account_name" then row.sam_account_name == some v
  else false

/-- Stable insertion into a list sorted by `created_at`. -/
def insertByCreated (x : CacheRow) : Cache → Cache
  | [] => [x]
  | y :: ys => if x.created_at ≤ y.created_at then x :: y :: ys else y :: insertByCreated x ys

/-- `ORDER BY created_at ASC` (stable sort). -/
def sortByCreated : Cache → Cache
  | [] => []
  | x :: xs => insertByCreated x (sortByCreated xs)

structure ListResult where
  total : Nat
  users : List CacheRow
  startIndex : Nat
  deriving Repr, DecidableEq

/-- The GET `/Users` handler: clamp `startIndex` to ≥ 1 and `count` to
`[1, 200]`; apply the parsed filter as an SQL equality predicate only for the
`eq` operator; count the matching rows and page them ordered by `created_at`
ascending with `OFFSET startIndex - 1` and `LIMIT pageSize`. -/
def listUsers (c : Cache) (filter : Option String) (startIndex count : Nat) : ListResult :=
  let sI := max 1 startIndex
  let pageSize := min 200 (max 1 count)
  let pred : CacheRow → Bool :=
    match filter with
    | some f =>
      match parseScimFilter f with
      | some p =>
        if p.operator = FilterOperator.eq then
          fun r => rowMatchesColumn r p.dbColumn p.value
        else fun _ => true
      | none => fun _ => true
    | none => fun _ => true
  let matching := c.filter pred
  { total := matching.length
    users := ((sortByCreated matching).drop (sI - 1)).take pageSize
    startIndex := sI }

/-! ### Heap model of the patch applier's in-place writes

The pure embedding above reproduces the *returned* values of
`applyPatchOps`.  To examine what happens to the caller's input object, this
small heap model makes JavaScript references explicit: an object lives at an
address, fields hold primitives or references, and `{...resource}` copies
only the field list — nested references stay shared. -/

/-- A JavaScript runtime value: a primitive, or a reference to a heap
object. -/
inductive HVal where
  | prim (v : JVal)
  | ref (a : Nat)
  deriving Repr, DecidableEq

abbrev HFields := List (String × HVal)

abbrev Heap := List (Nat × HFields)

/-- The field list of the object at address `a`. -/
def hGet (h : Heap) (a : Nat) : HFields :=
  ((h.find? (fun p => p.1 == a)).map Prod.snd).getD []

/-- Overwrite the object at address `a`. -/
def hSet (h : Heap) (a : Nat) (flds : HFields) : Heap :=
  h.map (fun p => if p.1 == a then (a, flds) else p)

/-- Allocate a fresh object. -/
def hAlloc (h : Heap) (flds : HFields) : Heap × Nat :=
  let a := h.foldl (fun m p => max m (p.1 + 1)) 0
  (h ++ [(a, flds)], a)

/-- `applyPatchOps` on the heap, for a single operation with a dotted path
`parent.child` whose parent field holds a shared reference — the exact code
path of the failing input:
`const updated = {...resource}` allocates a shallow copy whose `parent`
field still references the original's nested object;
`const parentObj = (resource[parent] as Record<string, unknown>) ?? {}`
follows that shared reference; `parentObj[child] = value` writes through it;
`resource[parent] = parentObj` stores the same reference back.  Returns the
final heap and the address of `updated`. -/
def applyDottedReplaceOnHeap (h : Heap) (resAddr : Nat) (parent child : String)
    (v : HVal) : Heap × Nat :=
  let alloc := hAlloc h (hGet h resAddr)
  let h1 := alloc.1
  let updAddr := alloc.2
  match alistGet (hGet h1 updAddr) parent with
  | some (HVal.ref pa) =>
    let h2 := hSet h1 pa (alistSet (hGet h1 pa) child v)
    let h3 := hSet h2 updAddr (alistSet (hGet h2 updAddr) parent (HVal.ref pa))
    (h3, updAddr)
  | _ => (h1, updAddr)

/-! ## Theorems -/

/-! ### Generic cache lemmas -/

theorem mem_updateRow {c : Cache} {id : String} {f : CacheRow → CacheRow} {r : CacheRow}
    (h : r ∈ updateRow c id f) : ∃ r0 ∈ c, r = if r0.id == id then f r0 else r0 := by
  simp only [updateRow, List.mem_map] at h
  obtain ⟨r0, h0, he⟩ := h
  exact ⟨r0, h0, he.symm⟩

/-- Rows carrying the targeted `id` satisfy `Q` after an update whose
transformer establishes `Q`. -/
theorem forall_updateRow_target {c : Cache} {id : String} {f : CacheRow → CacheRow}
    {Q : CacheRow → Prop} (hf : ∀ r, r.id = id → Q (f r)) :
    ∀ r ∈ updateRow c id f, r.id = id → Q r := by
  intro r hr hid
  obtain ⟨r0, h0, he⟩ := mem_updateRow hr
  by_cases h : r0.id = id
  · rw [if_pos (by simpa using h)] at he
    exact he ▸ hf r0 h
  · rw [if_neg (by simpa using h)] at he
    exact absurd (he ▸ hid) h

/-- Rows carrying `id` keep a property `Q` across an update (possibly
targeting another row) whose transformer preserves ids and `Q`. -/
theorem forall_updateRow_keep {c : Cache} {id2 id : String} {f : CacheRow → CacheRow}
    {Q : CacheRow → Prop} (hc : ∀ r ∈ c, r.id = id → Q r)
    (hid : ∀ r, (f r).id = r.id) (hf : ∀ r, Q r → Q (f r)) :
    ∀ r ∈ updateRow c id2 f, r.id = id → Q r := by
  intro r hr hridObj
  obtain ⟨r0, h0, he⟩ := mem_updateRow hr
  by_cases h : r0.id = id2
  · rw [if_pos (by simpa using h)] at he
    have hr0 : r0.id = id := by rw [← hid r0, ← he, hridObj]
    exact he ▸ hf r0 (hc r0 h0 hr0)
  · rw [if_neg (by simpa using h)] at he
    exact he ▸ hc r0 h0 (he ▸ hridObj)

theorem forall_refreshStep_keep {c : Cache} {id2 id : String} {env : PsEnv}
    {Q : CacheRow → Prop} (hc : ∀ r ∈ c, r.id = id → Q r)
    (hq : ∀ r a t, Q r → Q { r with ad_resource := a, updated_at := t }) :
    ∀ r ∈ refreshStep c id2 env, r.id = id → Q r := by
  unfold refreshStep
  cases env.refreshResult with
  | none => exact hc
  | some ad => exact forall_updateRow_keep hc (fun r => rfl) (fun r h => hq r (some ad) env.t h)

/-- `find?` success on the cache gives membership. -/
theorem findById_mem {c : Cache} {id : String} {row : CacheRow}
    (h : findById c id = some row) : row ∈ c :=
  List.mem_of_find?_eq_some h

theorem findById_id_eq {c : Cache} {id : String} {row : CacheRow}
    (h : findById c id = some row) : row.id = id := by
  have := List.find?_some h
  simpa using this

/-- The image of a row under the targeted transformer is in the updated
cache. -/
theorem image_mem_updateRow {c : Cache} {id : String} {f : CacheRow → CacheRow}
    {row : CacheRow} (h : row ∈ c) (hid : row.id = id) : f row ∈ updateRow c id f := by
  have : (if row.id == id then f row else row) ∈ updateRow c id f :=
    List.mem_map_of_mem _ h
  simpa [hid] using this

/-! ### sAMAccountName derivation (claim C7) -/

theorem samFromUserName_length_le (u : String) : (samFromUserName u).length ≤ 20 := by
  show ((u.data.takeWhile (fun c => c != '@')).take 20).length ≤ 20
  exact List.length_take_le 20 _

theorem samFromUserName_no_at (u : String) : '@' ∉ (samFromUserName u).data := by
  intro h
  have h2 : '@' ∈ u.data.takeWhile (fun c => c != '@') := List.mem_of_mem_take h
  have h3 := List.mem_takeWhile_imp h2
  simp at h3

theorem refreshStep_exists_sam {c : Cache} {id2 : String} {env : PsEnv} {r0 : CacheRow}
    (h : r0 ∈ c) :
    ∃ r ∈ refreshStep c id2 env, r.sam_account_name = r0.sam_account_name := by
  unfold refreshStep
  cases env.refreshResult with
  | none => exact ⟨r0, h, rfl⟩
  | some ad =>
    refine ⟨if r0.id == id2 then { r0 with ad_resource := some ad, updated_at := env.t } else r0,
      ?_, ?_⟩
    · exact List.mem_map_of_mem _ h
    · by_cases hb : r0.id == id2 <;> simp [hb]

theorem exists_sam_insert (c : Cache) (row : CacheRow) :
    ∃ r ∈ c ++ [row], r.sam_account_name = row.sam_account_name :=
  ⟨row, by simp, rfl⟩

theorem exists_sam_insert_refresh (env : PsEnv) (c : Cache) (row : CacheRow) (id2 : String) :
    ∃ r ∈ refreshStep (c ++ [row]) id2 env, r.sam_account_name = row.sam_account_name :=
  refreshStep_exists_sam (by simp)

/-- C7: every sam_account_name persisted by create (and by replace when a
userName is supplied) equals the portion of userName before the first `@`
truncated to 20 characters; such a value never exceeds 20 characters and
contains no `@`; a userName of 25 `a`s followed by `@b` yields 20 `a`s. -/
theorem sam_account_name_derivation (u : String) (c : Cache) (user : JObj)
    (env : PsEnv) (id : String) (row : CacheRow) :
    (samFromUserName u).length ≤ 20
    ∧ '@' ∉ (samFromUserName u).data
    ∧ samFromUserName "aaaaaaaaaaaaaaaaaaaaaaaaa@b" = "aaaaaaaaaaaaaaaaaaaa"
    ∧ (truthyStr (objGet user "userName") = some u →
        findBySam c (samFromUserName u) = none →
        env.psResult.exitCode = 0 →
        ∃ r ∈ (createUser c user env).2, r.sam_account_name = some (samFromUserName u))
    ∧ (findById c id = some row → truthyStr (objGet user "userName") = some u →
        ∀ r ∈ (replaceUser c id user env).2, r.id = id →
          r.sam_account_name = some (samFromUserName u)) := by
  refine ⟨samFromUserName_length_le u, samFromUserName_no_at u, by decide, ?_, ?_⟩
  · intro hU hDup hExit
    have hb : (env.psResult.exitCode != 0) = false := by simp [hExit]
    unfold createUser
    simp only [hU, hDup, hb, Bool.false_eq_true, if_false]
    cases hg : extractObjectGuid env.psResult.parsed with
    | none =>
      simp only [hg]
      exact exists_sam_insert c _
    | some g =>
      simp only [hg]
      obtain ⟨r, hr, hs⟩ := exists_sam_insert_refresh env c _ _
      exact ⟨r, hr, hs⟩
  · intro hRow hU
    unfold replaceUser
    simp only [hRow, hU]
    cases hI : strTruthy (jsNullish row.ad_object_guid row.sam_account_name) with
    | none =>
      simp only [hI]
      exact forall_updateRow_target (fun r _ => rfl)
    | some i =>
      simp only [hI]
      by_cases hE : (env.psResult.exitCode != 0) = true
      · rw [if_pos hE]
        exact forall_updateRow_keep (forall_updateRow_target (fun r _ => rfl))
          (fun r => rfl) (fun r h => h)
      · rw [if_neg hE]
        refine forall_refreshStep_keep ?_ (fun r a t h => h)
        exact forall_updateRow_keep (forall_updateRow_target (fun r _ => rfl))
          (fun r => rfl) (fun r h => h)

/-- Witness for `sam_account_name_derivation`. -/
theorem sam_account_name_derivation_witness :
    ∃ r ∈ (createUser []
        [("userName", JVal.str "alice@example.com")]
        { psResult := { exitCode := 0, stderr := "", parsed := none },
          refreshResult := none, freshId := "fresh-1", t := 5 }).2,
      r.sam_account_name = some (samFromUserName "alice@example.com") := by
  have h := sam_account_name_derivation "alice@example.com" []
    [("userName", JVal.str "alice@example.com")]
    { psResult := { exitCode := 0, stderr := "", parsed := none },
      refreshResult := none, freshId := "fresh-1", t := 5 } "" {id := ""}
  exact h.2.2.2.1 (by decide) (by decide) rfl

/-! ### Create atomicity on external failure (claim C2) -/

/-- C2: when the directory create command exits nonzero (the request passed
validation and the duplicate pre-check), the POST handler returns the
classified SCIM error and the cache is returned unchanged — no row is
inserted. -/
theorem create_psFailure_returns_error_without_insert (c : Cache) (user : JObj)
    (env : PsEnv) (u : String)
    (hU : truthyStr (objGet user "userName") = some u)
    (hDup : findBySam c (samFromUserName u) = none)
    (hExit : env.psResult.exitCode ≠ 0) :
    createUser c user env = (.err (mapPsErrorToScim env.psResult.stderr), c) := by
  have hb : (env.psResult.exitCode != 0) = true := by simpa using hExit
  unfold createUser
  simp only [hU, hDup, hb, if_true]

/-- Witness for `create_psFailure_returns_error_without_insert`. -/
theorem create_psFailure_witness :
    createUser [] [("userName", JVal.str "bob@corp")]
        { psResult := { exitCode := 1, stderr := "Access is denied." },
          refreshResult := none, freshId := "f", t := 0 }
      = (.err { status := 403, detail := "Access is denied." }, []) := by
  have h := create_psFailure_returns_error_without_insert []
    [("userName", JVal.str "bob@corp")]
    { psResult := { exitCode := 1, stderr := "Access is denied." },
      refreshResult := none, freshId := "f", t := 0 } "bob@corp"
    (by decide) (by decide) (by decide)
  rw [h]
  decide

/-! ### Invariant: synced rows carry no error (claim C3) -/

/-- Row-level invariant: `sync_status = synced` implies `last_error IS NULL`. -/
def RowOk (r : CacheRow) : Prop := r.sync_status = SyncStatus.synced → r.last_error = none

def CacheInv (c : Cache) : Prop := ∀ r ∈ c, RowOk r

theorem cacheInv_updateRow {c : Cache} {id : String} {f : CacheRow → CacheRow}
    (hc : CacheInv c) (hf : ∀ r, RowOk r → RowOk (f r)) :
    CacheInv (updateRow c id f) := by
  intro r hr
  obtain ⟨r0, h0, he⟩ := mem_updateRow hr
  by_cases h : r0.id = id
  · rw [if_pos (by simpa using h)] at he
    exact he ▸ hf r0 (hc r0 h0)
  · rw [if_neg (by simpa using h)] at he
    exact he ▸ hc r0 h0

theorem cacheInv_refreshStep {c : Cache} {id2 : String} {env : PsEnv}
    (hc : CacheInv c) : CacheInv (refreshStep c id2 env) := by
  unfold refreshStep
  cases env.refreshResult with
  | none => exact hc
  | some ad => exact cacheInv_updateRow hc (fun r h => h)

theorem cacheInv_append {c : Cache} {row : CacheRow} (hc : CacheInv c) (h : RowOk row) :
    CacheInv (c ++ [row]) := by
  intro r hr
  rcases List.mem_append.1 hr with h1 | h1
  · exact hc r h1
  · have : r = row := by simpa using h1
    exact this ▸ h

theorem cacheInv_deleteRow {c : Cache} {id : String} (hc : CacheInv c) :
    CacheInv (deleteRowById c id) :=
  fun r hr => hc r (List.mem_of_mem_filter hr)

/-- C3: every operation of the processor preserves the invariant that a row
with `sync_status = synced` has `last_error = NULL`: the create insert sets
`synced` with `last_error` at its NULL default, every transition to `synced`
clears `last_error` in the same update, failure transitions set `error`, and
the pending/refresh updates do not touch the pair inconsistently. -/
theorem synced_implies_no_error_invariant (c : Cache) (hc : CacheInv c) (user : JObj)
    (id : String) (ops : List PatchOperation) (env : PsEnv) :
    CacheInv (createUser c user env).2 ∧ CacheInv (replaceUser c id user env).2
    ∧ CacheInv (patchUser c id ops env).2 ∧ CacheInv (deleteUser c id env).2 := by
  have pendingOk : ∀ (g : CacheRow → CacheRow),
      (∀ r, (g r).sync_status = SyncStatus.pending) → ∀ r, RowOk r → RowOk (g r) := by
    intro g hg r _ hs
    rw [hg r] at hs
    exact absurd hs (by simp)
  have errorOk : ∀ (g : CacheRow → CacheRow),
      (∀ r, (g r).sync_status = SyncStatus.error) → ∀ r, RowOk r → RowOk (g r) := by
    intro g hg r _ hs
    rw [hg r] at hs
    exact absurd hs (by simp)
  refine ⟨?_, ?_, ?_, ?_⟩
  · unfold createUser
    cases hU : truthyStr (objGet user "userName") with
    | none => exact hc
    | some userName =>
      cases hD : findBySam c (samFromUserName userName) with
      | some r0 => simp only [hU, hD]; exact hc
      | none =>
        cases hE : env.psResult.exitCode != 0 with
        | true => simp only [hU, hD, hE, if_true]; exact hc
        | false =>
          cases hg : extractObjectGuid env.psResult.parsed with
          | none =>
            simp only [hU, hD, hE, hg, Bool.false_eq_true, if_false]
            exact cacheInv_append hc (fun _ => rfl)
          | some g =>
            simp only [hU, hD, hE, hg, Bool.false_eq_true, if_false]
            exact cacheInv_refreshStep (cacheInv_append hc (fun _ => rfl))
  · unfold replaceUser
    cases hR : findById c id with
    | none => exact hc
    | some row =>
      have hc1 : CacheInv (updateRow c id (fun r =>
          { r with scim_resource := objSet user "id" (JVal.str id),
                   sam_account_name :=
                     match truthyStr (objGet user "userName") with
                     | some u => some (samFromUserName u)
                     | none => row.sam_account_name,
                   sync_status := SyncStatus.pending, updated_at := env.t })) :=
        cacheInv_updateRow hc (pendingOk _ (fun r => rfl))
      cases hI : strTruthy (jsNullish row.ad_object_guid row.sam_account_name) with
      | none => simp only [hR, hI]; exact hc1
      | some i =>
        cases hE : env.psResult.exitCode != 0 with
        | true =>
          simp only [hR, hI, hE, if_true]
          exact cacheInv_updateRow hc1 (errorOk _ (fun r => rfl))
        | false =>
          simp only [hR, hI, hE, Bool.false_eq_true, if_false]
          exact cacheInv_refreshStep (cacheInv_updateRow hc1 (fun r _ _ => rfl))
  · unfold patchUser
    cases hOe : ops.isEmpty with
    | true => simp only [hOe, if_true]; exact hc
    | false =>
      cases hR : findById c id with
      | none => simp only [hOe, hR, Bool.false_eq_true, if_false]; exact hc
      | some row =>
        have hc1 : CacheInv (updateRow c id (fun r =>
            { r with scim_resource :=
                       objSet (applyPatchOps row.scim_resource ops).updated "id" (JVal.str id),
                     sync_status := SyncStatus.pending, updated_at := env.t })) :=
          cacheInv_updateRow hc (pendingOk _ (fun r => rfl))
        cases hI : strTruthy (jsNullish row.ad_object_guid row.sam_account_name) with
        | none => simp only [hOe, hR, hI, Bool.false_eq_true, if_false]; exact hc1
        | some i =>
          cases hF : setParamsCount (stripNameAndPath
              (scimToAdParams (applyPatchOps row.scim_resource ops).changedFields none)) > 0
              && env.psResult.exitCode != 0 with
          | true =>
            simp only [hOe, hR, hI, hF, Bool.false_eq_true, if_false, if_true]
            exact cacheInv_updateRow hc1 (errorOk _ (fun r => rfl))
          | false =>
            simp only [hOe, hR, hI, hF, Bool.false_eq_true, if_false]
            exact cacheInv_refreshStep (cacheInv_updateRow hc1 (fun r _ _ => rfl))
  · unfold deleteUser
    cases hR : findById c id with
    | none => exact hc
    | some row =>
      cases hI : strTruthy (jsNullish row.ad_object_guid row.sam_account_name) with
      | none => simp only [hR, hI]; exact cacheInv_deleteRow hc
      | some i =>
        cases hE : env.psResult.exitCode != 0 with
        | false =>
          simp only [hR, hI, hE, Bool.false_eq_true, if_false]
          exact cacheInv_deleteRow hc
        | true =>
          cases hA : includesStr (toLowerJs env.psResult.stderr) "cannot find"
              || includesStr (toLowerJs env.psResult.stderr) "not found" with
          | true =>
            simp only [hR, hI, hE, hA, if_true]
            exact cacheInv_deleteRow hc
          | false =>
            simp only [hR, hI, hE, hA, Bool.false_eq_true, if_false, if_true]
            exact hc

/-- Witness for `synced_implies_no_error_invariant`. -/
theorem synced_implies_no_error_invariant_witness :
    CacheInv (createUser [] [("userName", JVal.str "eve@x")] {}).2
    ∧ CacheInv (replaceUser [] "u" [] {}).2
    ∧ CacheInv (patchUser [] "u" [] {}).2
    ∧ CacheInv (deleteUser [] "u" {}).2 :=
  synced_implies_no_error_invariant [] (fun r hr => absurd hr (by simp)) _ _ _ _

/-! ### Error path after the pending write (claim C10) -/

/-- C10: on PUT and PATCH against a row with neither `ad_object_guid` nor
`sam_account_name`, the handler answers 500 — but only after persisting the
new SCIM view with `sync_status = 'pending'`; the write is not rolled back,
so the stored `scim_resource` reflects the rejected request. -/
theorem replace_patch_500_leaves_pending_view (c : Cache) (id : String) (user : JObj)
    (ops : List PatchOperation) (env : PsEnv) (row : CacheRow)
    (hRow : findById c id = some row) (hG : row.ad_object_guid = none)
    (hS : row.sam_account_name = none) (hOps : ops ≠ []) :
    (replaceUser c id user env).1 = .err noIdentityError
    ∧ (∃ r ∈ (replaceUser c id user env).2,
        r.id = id ∧ r.scim_resource = objSet user "id" (JVal.str id)
          ∧ r.sync_status = .pending)
    ∧ (∀ r ∈ (replaceUser c id user env).2, r.id = id →
        r.scim_resource = objSet user "id" (JVal.str id) ∧ r.sync_status = .pending)
    ∧ (patchUser c id ops env).1 = .err noIdentityError
    ∧ (∃ r ∈ (patchUser c id ops env).2,
        r.id = id ∧ r.scim_resource =
            objSet (applyPatchOps row.scim_resource ops).updated "id" (JVal.str id)
          ∧ r.sync_status = .pending)
    ∧ (∀ r ∈ (patchUser c id ops env).2, r.id = id →
        r.scim_resource = objSet (applyPatchOps row.scim_resource ops).updated "id" (JVal.str id)
          ∧ r.sync_status = .pending) := by
  have hI : strTruthy (jsNullish row.ad_object_guid row.sam_account_name) = none := by
    rw [hG, hS]; rfl
  have hOe : ops.isEmpty = false := by
    cases ops with
    | nil => exact absurd rfl hOps
    | cons a l => rfl
  have hidr : row.id = id := findById_id_eq hRow
  have hmem : row ∈ c := findById_mem hRow
  constructor
  · unfold replaceUser
    simp only [hRow, hI]
  constructor
  · unfold replaceUser
    simp only [hRow, hI]
    exact ⟨_, image_mem_updateRow hmem hidr, hidr, rfl, rfl⟩
  constructor
  · unfold replaceUser
    simp only [hRow, hI]
    exact forall_updateRow_target (fun r _ => ⟨rfl, rfl⟩)
  constructor
  · unfold patchUser
    simp only [hOe, hRow, hI, Bool.false_eq_true, if_false]
  constructor
  · unfold patchUser
    simp only [hOe, hRow, hI, Bool.false_eq_true, if_false]
    exact ⟨_, image_mem_updateRow hmem hidr, hidr, rfl, rfl⟩
  · unfold patchUser
    simp only [hOe, hRow, hI, Bool.false_eq_true, if_false]
    exact forall_updateRow_target (fun r _ => ⟨rfl, rfl⟩)

/-- Witness for `replace_patch_500_leaves_pending_view`. -/
theorem replace_patch_500_leaves_pending_view_witness :
    ((replaceUser [{ id := "u1", scim_resource := [("userName", JVal.str "old")] }] "u1"
        [("userName", JVal.str "new@x")] {}).1 = .err noIdentityError)
    ∧ (∀ r ∈ (patchUser [{ id := "u1", scim_resource := [("userName", JVal.str "old")] }] "u1"
        [{ op := "replace", path := some "active", value := JVal.bool false }] {}).2,
        r.id = "u1" →
        r.scim_resource = objSet (applyPatchOps [("userName", JVal.str "old")]
            [{ op := "replace", path := some "active", value := JVal.bool false }]).updated
            "id" (JVal.str "u1")
          ∧ r.sync_status = .pending) := by
  have h := replace_patch_500_leaves_pending_view
    [{ id := "u1", scim_resource := [("userName", JVal.str "old")] }] "u1"
    [("userName", JVal.str "new@x")]
    [{ op := "replace", path := some "active", value := JVal.bool false }] {}
    { id := "u1", scim_resource := [("userName", JVal.str "old")] }
    (by decide) rfl rfl (by decide)
  exact ⟨h.1, h.2.2.2.2.2⟩

/-! ### Error classifier (claim C8) -/

/-- C8: the classifier lowercases the stderr and tests the substring rules in
the spec's order with the first match winning (the ordered-rule scan
`mapPsErrorToScimSpec` written from the spec table), and the returned detail
is always the original, non-lowercased stderr. -/
theorem classifier_matches_spec_order_and_detail (s : String) :
    mapPsErrorToScim s = mapPsErrorToScimSpec s ∧ (mapPsErrorToScim s).detail = s := by
  constructor
  · by_cases h1 : (includesStr (toLowerJs s) "already exists"
        || includesStr (toLowerJs s) "already in use") = true <;>
    by_cases h2 : (includesStr (toLowerJs s) "cannot find an object with identity"
        || includesStr (toLowerJs s) "not found"
        || includesStr (toLowerJs s) "no such object") = true <;>
    by_cases h3 : (includesStr (toLowerJs s) "password"
        && (includesStr (toLowerJs s) "complexity" || includesStr (toLowerJs s) "length"
            || includesStr (toLowerJs s) "requirement")) = true <;>
    by_cases h4 : (includesStr (toLowerJs s) "access"
        && includesStr (toLowerJs s) "denied") = true <;>
    by_cases h5 : (includesStr (toLowerJs s) "invalid"
        || includesStr (toLowerJs s) "bad request") = true <;>
    simp [mapPsErrorToScim, mapPsErrorToScimSpec, specErrorRules, List.find?,
      h1, h2, h3, h4, h5]
  · simp only [mapPsErrorToScim]
    repeat' split
    all_goals rfl

/-! ### Patch email synthesis and mapping (claim C9) -/

/-- C9: `add` at `emails[type eq "work"].value` with value `a@b` on a
resource whose emails list is empty synthesizes `{type:"work"}` from the
filter, sets the sub-attribute and appends, so the updated emails equal
`[{type:"work", value:"a@b"}]`, `changedFields` carries the emails key, and
mapping `changedFields` to directory parameters yields
`EmailAddress = "a@b"`. -/
theorem patch_add_email_synthesizes_and_maps :
    (applyPatchOps [("emails", JVal.arr [])]
        [{ op := "add", path := some "emails[type eq \"work\"].value",
           value := JVal.str "a@b" }]).updated
      = [("emails", JVal.arr [JVal.obj [("type", JVal.str "work"),
          ("value", JVal.str "a@b")]])]
    ∧ objGet (applyPatchOps [("emails", JVal.arr [])]
        [{ op := "add", path := some "emails[type eq \"work\"].value",
           value := JVal.str "a@b" }]).changedFields "emails"
      = some (JVal.arr [JVal.obj [("type", JVal.str "work"), ("value", JVal.str "a@b")]])
    ∧ (scimToAdParams (applyPatchOps [("emails", JVal.arr [])]
        [{ op := "add", path := some "emails[type eq \"work\"].value",
           value := JVal.str "a@b" }]).changedFields none).EmailAddress = some "a@b" := by
  decide

/-! ### In-place mutation of the caller's resource (claim C5) -/

/-- C5 (code bug): the failing input `{name: {givenName: "Al"}}` with the
single operation `replace name.givenName "Bob"`.  Before the call the
original resource (heap address 1) reaches `givenName = "Al"` through its
`name` reference (address 0); after `applyPatchOps`, the returned resource is
a fresh object (address 2), but the original still holds the same `name`
reference, whose `givenName` is now `"Bob"` — the input was mutated, contrary
to the applier's contract that the original stays untouched. -/
theorem applyPatchOps_mutates_callers_nested_object :
    (hGet [(0, [("givenName", HVal.prim (JVal.str "Al"))]), (1, [("name", HVal.ref 0)])] 1
      = [("name", HVal.ref 0)])
    ∧ (alistGet (hGet [(0, [("givenName", HVal.prim (JVal.str "Al"))]),
          (1, [("name", HVal.ref 0)])] 0) "givenName" = some (HVal.prim (JVal.str "Al")))
    ∧ (applyDottedReplaceOnHeap
        [(0, [("givenName", HVal.prim (JVal.str "Al"))]), (1, [("name", HVal.ref 0)])]
        1 "name" "givenName" (HVal.prim (JVal.str "Bob"))).2 = 2
    ∧ (alistGet (hGet (applyDottedReplaceOnHeap
        [(0, [("givenName", HVal.prim (JVal.str "Al"))]), (1, [("name", HVal.ref 0)])]
        1 "name" "givenName" (HVal.prim (JVal.str "Bob"))).1 1) "name"
      = some (HVal.ref 0))
    ∧ (alistGet (hGet (applyDottedReplaceOnHeap
        [(0, [("givenName", HVal.prim (JVal.str "Al"))]), (1, [("name", HVal.ref 0)])]
        1 "name" "givenName" (HVal.prim (JVal.str "Bob"))).1 0) "givenName"
      = some (HVal.prim (JVal.str "Bob"))) := by
  decide

/-! ### List filter semantics (claims C6) -/

theorem mem_insertByCreated {x y : CacheRow} {l : Cache} :
    y ∈ insertByCreated x l ↔ y = x ∨ y ∈ l := by
  induction l with
  | nil => simp [insertByCreated]
  | cons z zs ih =>
    unfold insertByCreated
    by_cases h : x.created_at ≤ z.created_at
    · simp [h]
    · simp only [h, if_false, List.mem_cons, ih]
      tauto

theorem mem_sortByCreated {y : CacheRow} {l : Cache} : y ∈ sortByCreated l ↔ y ∈ l := by
  induction l with
  | nil => simp [sortByCreated]
  | cons z zs ih => simp [sortByCreated, mem_insertByCreated, ih]

/-- The cache row a create from userName `"x@y"` persists: its
`sam_account_name` is the truncated `"x"`. -/
def rowSamX : CacheRow :=
  { id := "u1", sam_account_name := some "x",
    scim_resource := [("userName", JVal.str "x@y")] }

/-- A row whose `sam_account_name` is the entire string `"x@y"`. -/
def rowSamXY : CacheRow :=
  { id := "u2", sam_account_name := some "x@y", scim_resource := [] }

/-- C6 counterexample: with the cache holding exactly the row whose
`sam_account_name` is `"x"` (as a create from userName `"x@y"` persists it),
the filter `userName eq "x@y"` parses as supported, yet the result page is
empty — it does not contain that row. -/
theorem filter_full_value_misses_truncated_sam :
    (parseScimFilter "userName eq \"x@y\"").isSome = true
    ∧ (listUsers [rowSamX] (some "userName eq \"x@y\"") 1 100).users = []
    ∧ (listUsers [rowSamX] (some "userName eq \"x@y\"") 1 100).total = 0 := by
  decide

/-- C6 (amended): the filter `userName eq "x@y"` is parsed as supported
(userName maps to the `sam_account_name` column) and the result page contains
only rows whose `sam_account_name` equals the entire filter value `"x@y"`;
the row holding the truncated `"x"` is not matched. -/
theorem filter_userName_eq_matches_full_value :
    parseScimFilter "userName eq \"x@y\"" =
      some { attrib := "userName", operator := .eq, value := "x@y",
             dbColumn := "sam_account_name" }
    ∧ ∀ (c : Cache) (sI n : Nat) (r : CacheRow),
        r ∈ (listUsers c (some "userName eq \"x@y\"") sI n).users →
        r.sam_account_name = some "x@y" := by
  have hp : parseScimFilter "userName eq \"x@y\"" =
      some { attrib := "userName", operator := .eq, value := "x@y",
             dbColumn := "sam_account_name" } := by decide
  refine ⟨hp, ?_⟩
  intro c sI n r hr
  unfold listUsers at hr
  simp only [hp] at hr
  have h1 := List.mem_of_mem_take hr
  have h2 := List.mem_of_mem_drop h1
  have h3 := mem_sortByCreated.1 h2
  have h4 := (List.mem_filter.1 h3).2
  simpa [rowMatchesColumn] using h4

/-- Witness for `filter_userName_eq_matches_full_value`. -/
theorem filter_userName_eq_matches_full_value_witness :
    rowSamXY.sam_account_name = some "x@y" :=
  (filter_userName_eq_matches_full_value).2 [rowSamXY] 1 100 rowSamXY (by decide)

/-! ### Audit redaction (claim C1) -/

/-- Two parameter objects differing only in the values of sensitive keys:
same keys in the same order, equal values at every non-sensitive key. -/
def ParamsAgreeOffSensitive (p q : JObj) : Prop :=
  List.Forall₂ (fun a b : String × JVal =>
    a.1 = b.1 ∧ (isSensitiveKey a.1 = false → a.2 = b.2)) p q

theorem sanitizeParams_eq_of_agree {p q : JObj} (h : ParamsAgreeOffSensitive p q) :
    sanitizeParams p = sanitizeParams q := by
  induction h with
  | nil => rfl
  | @cons a b l1 l2 hab htail ih =>
    obtain ⟨hk, hv⟩ := hab
    simp only [sanitizeParams, List.map] at ih ⊢
    rw [ih, hk]
    by_cases hs : isSensitiveKey b.1
    · simp [hs]
    · have hv2 := hv (by rw [hk]; simpa using hs)
      simp [hs, hv2]

/-- C1: every sensitive key (`accountpassword`, `password`, `secret`,
`token`, case-insensitively) has its value replaced by the fixed redaction
marker before the parameters are serialized into the audit row, and two
parameter maps differing only in the values of sensitive keys serialize to
identical audit parameters. -/
theorem audit_redacts_sensitive_params (p q : JObj)
    (h : ParamsAgreeOffSensitive p q) :
    (∀ kv ∈ sanitizeParams p, isSensitiveKey kv.1 = true →
        kv.2 = JVal.str "***REDACTED***")
    ∧ auditParameters p = auditParameters q := by
  constructor
  · intro kv hkv hs
    simp only [sanitizeParams, List.mem_map] at hkv
    obtain ⟨a, ha, rfl⟩ := hkv
    simp only at hs ⊢
    simp [hs]
  · unfold auditParameters
    rw [sanitizeParams_eq_of_agree h]

/-- Witness for `audit_redacts_sensitive_params`. -/
theorem audit_redacts_sensitive_params_witness :
    (∀ kv ∈ sanitizeParams [("AccountPassword", JVal.str "hunter2"),
        ("SamAccountName", JVal.str "alice")],
      isSensitiveKey kv.1 = true → kv.2 = JVal.str "***REDACTED***")
    ∧ auditParameters [("AccountPassword", JVal.str "hunter2"),
        ("SamAccountName", JVal.str "alice")]
      = auditParameters [("AccountPassword", JVal.str "pw-two"),
        ("SamAccountName", JVal.str "alice")] :=
  audit_redacts_sensitive_params _ _
    (List.Forall₂.cons (by decide) (List.Forall₂.cons (by decide) List.Forall₂.nil))

/-! ### Attribute-mapper round trip (claim C4) -/

theorem alistGet_set_self {α : Type} (o : List (String × α)) (k : String) (v : α) :
    alistGet (alistSet o k v) k = some v := by
  induction o with
  | nil => simp [alistGet, alistSet]
  | cons x xs ih =>
    by_cases h : x.1 = k <;> simp [alistGet, alistSet, h, ih]

theorem alistGet_set_ne {α : Type} (o : List (String × α)) (k k2 : String) (v : α)
    (h : k ≠ k2) : alistGet (alistSet o k v) k2 = alistGet o k2 := by
  induction o with
  | nil => simp [alistGet, alistSet, h]
  | cons x xs ih =>
    by_cases h1 : x.1 = k
    · have h2 : ¬ x.1 = k2 := by rw [h1]; exact h
      simp [alistGet, alistSet, h1, h2, h]
    · by_cases h2 : x.1 = k2 <;> simp [alistGet, alistSet, h1, h2, ih, Ne.symm h]

theorem alistGet_append {α : Type} (l1 l2 : List (String × α)) (k : String) :
    alistGet (l1 ++ l2) k =
      match alistGet l1 k with
      | some v => some v
      | none => alistGet l2 k := by
  induction l1 with
  | nil => rfl
  | cons x xs ih => by_cases h : x.1 = k <;> simp [alistGet, h, ih]

theorem strTruthy_truthyStr (x : Option JVal) : strTruthy (truthyStr x) = truthyStr x := by
  cases x with
  | none => rfl
  | some v =>
    cases v <;> simp [truthyStr, strTruthy]
    next s => by_cases h : s = "" <;> simp [h, strTruthy]

theorem truthyStr_ne_empty {x : Option JVal} {v : String} (h : truthyStr x = some v) :
    v ≠ "" := by
  cases x with
  | none => simp [truthyStr] at h
  | some w =>
    cases w <;> simp [truthyStr] at h
    next s =>
      by_cases hs : s = "" <;> simp [hs] at h
      rw [← h]; exact hs

theorem emailsExtract_ne_empty {x : Option JVal} {v : String}
    (h : emailsExtract x = some v) : v ≠ "" := by
  cases x with
  | none => simp [emailsExtract] at h
  | some w =>
    cases w <;> simp [emailsExtract] at h
    next l =>
      cases l with
      | nil => simp at h
      | cons e0 es => exact truthyStr_ne_empty h

/-- How `mergeAdIntoScim` reads back at `userName`. -/
theorem merge_get_userName (e : JObj) (p : AdUserParams) :
    objGet (mergeAdIntoScim e p) "userName" =
      match strTruthy p.SamAccountName with
      | some s => some (JVal.str s)
      | none => objGet e "userName" := by
  unfold mergeAdIntoScim
  cases hS : strTruthy p.SamAccountName <;>
  cases hD : strTruthy p.DisplayName <;>
  by_cases hN : ((strTruthy p.GivenName).isSome || (strTruthy p.Surname).isSome) = true <;>
  cases hE : strTruthy p.EmailAddress <;>
  cases hB : p.Enabled <;>
  simp [hS, hD, hN, hE, hB, objGet, objSet, alistGet_set_self, alistGet_set_ne]

/-- How `mergeAdIntoScim` reads back at `displayName`. -/
theorem merge_get_displayName (e : JObj) (p : AdUserParams) :
    objGet (mergeAdIntoScim e p) "displayName" =
      match strTruthy p.DisplayName with
      | some s => some (JVal.str s)
      | none => objGet e "displayName" := by
  unfold mergeAdIntoScim
  cases hS : strTruthy p.SamAccountName <;>
  cases hD : strTruthy p.DisplayName <;>
  by_cases hN : ((strTruthy p.GivenName).isSome || (strTruthy p.Surname).isSome) = true <;>
  cases hE : strTruthy p.EmailAddress <;>
  cases hB : p.Enabled <;>
  simp [hS, hD, hN, hE, hB, objGet, objSet, alistGet_set_self, alistGet_set_ne]

/-- How `mergeAdIntoScim` reads back at `emails`. -/
theorem merge_get_emails (e : JObj) (p : AdUserParams) :
    objGet (mergeAdIntoScim e p) "emails" =
      match strTruthy p.EmailAddress with
      | some v => some (JVal.arr [JVal.obj [("value", JVal.str v), ("type", JVal.str "work"),
          ("primary", JVal.bool true)]])
      | none => objGet e "emails" := by
  unfold mergeAdIntoScim
  cases hS : strTruthy p.SamAccountName <;>
  cases hD : strTruthy p.DisplayName <;>
  by_cases hN : ((strTruthy p.GivenName).isSome || (strTruthy p.Surname).isSome) = true <;>
  cases hE : strTruthy p.EmailAddress <;>
  cases hB : p.Enabled <;>
  simp [hS, hD, hN, hE, hB, objGet, objSet, alistGet_set_self, alistGet_set_ne]

/-- How `mergeAdIntoScim` reads back at `active`. -/
theorem merge_get_active (e : JObj) (p : AdUserParams) :
    objGet (mergeAdIntoScim e p) "active" =
      match p.Enabled with
      | some b => some (JVal.bool b)
      | none => objGet e "active" := by
  unfold mergeAdIntoScim
  cases hS : strTruthy p.SamAccountName <;>
  cases hD : strTruthy p.DisplayName <;>
  by_cases hN : ((strTruthy p.GivenName).isSome || (strTruthy p.Surname).isSome) = true <;>
  cases hE : strTruthy p.EmailAddress <;>
  cases hB : p.Enabled <;>
  simp [hS, hD, hN, hE, hB, objGet, objSet, alistGet_set_self, alistGet_set_ne]

/-- `mergeAdIntoScim` never touches `externalId`. -/
theorem merge_get_externalId (e : JObj) (p : AdUserParams) :
    objGet (mergeAdIntoScim e p) "externalId" = objGet e "externalId" := by
  unfold mergeAdIntoScim
  cases hS : strTruthy p.SamAccountName <;>
  cases hD : strTruthy p.DisplayName <;>
  by_cases hN : ((strTruthy p.GivenName).isSome || (strTruthy p.Surname).isSome) = true <;>
  cases hE : strTruthy p.EmailAddress <;>
  cases hB : p.Enabled <;>
  simp [hS, hD, hN, hE, hB, objGet, objSet, alistGet_set_self, alistGet_set_ne]

/-- The `name` block of `mergeAdIntoScim`, isolated: when `GivenName` or
`Surname` is truthy the `name` object is rebuilt from the existing one (an
absent or non-object `name` starts from `{}`), else `name` is untouched. -/
theorem merge_get_name (e : JObj) (p : AdUserParams) :
    objGet (mergeAdIntoScim e p) "name" =
      if (strTruthy p.GivenName).isSome || (strTruthy p.Surname).isSome then
        some (JVal.obj (
          let base : JObj :=
            match objGet e "name" with
            | some (.obj o) => o
            | _ => []
          let withG :=
            match strTruthy p.GivenName with
            | some g => objSet base "givenName" (JVal.str g)
            | none => base
          match strTruthy p.Surname with
          | some f => objSet withG "familyName" (JVal.str f)
          | none => withG))
      else objGet e "name" := by
  unfold mergeAdIntoScim
  cases hS : strTruthy p.SamAccountName <;>
  cases hD : strTruthy p.DisplayName <;>
  by_cases hN : ((strTruthy p.GivenName).isSome || (strTruthy p.Surname).isSome) = true <;>
  cases hE : strTruthy p.EmailAddress <;>
  cases hB : p.Enabled <;>
  simp [hS, hD, hN, hE, hB, objGet, objSet, alistGet_set_self, alistGet_set_ne]

/-- How `mergeAdIntoScim` reads back at `name.givenName`: set when
`GivenName` is truthy, otherwise the existing sub-field survives (also when
only `Surname` rebuilds the `name` object). -/
theorem merge_get_givenName (e : JObj) (p : AdUserParams) :
    jGet (objGet (mergeAdIntoScim e p) "name") "givenName" =
      match strTruthy p.GivenName with
      | some g => some (JVal.str g)
      | none => jGet (objGet e "name") "givenName" := by
  rw [merge_get_name]
  by_cases hN : ((strTruthy p.GivenName).isSome || (strTruthy p.Surname).isSome) = true
  · rw [if_pos hN]
    cases hG : strTruthy p.GivenName with
    | some g =>
      cases hF : strTruthy p.Surname <;>
        simp [hG, hF, jGet, objGet, objSet, alistGet_set_self, alistGet_set_ne]
    | none =>
      cases hF : strTruthy p.Surname with
      | none => rw [hG, hF] at hN; simp at hN
      | some f =>
        cases hn : objGet e "name" with
        | none => simp [hG, hF, hn, jGet, objGet, objSet, alistGet_set_ne, alistGet]
        | some v =>
          cases v <;> simp [hG, hF, hn, jGet, objGet, objSet, alistGet_set_ne, alistGet]
  · rw [if_neg hN]
    have hG : strTruthy p.GivenName = none := by
      cases hG2 : strTruthy p.GivenName
      · rfl
      · rw [hG2] at hN; simp at hN
    simp [hG]

/-- How `mergeAdIntoScim` reads back at `name.familyName`. -/
theorem merge_get_familyName (e : JObj) (p : AdUserParams) :
    jGet (objGet (mergeAdIntoScim e p) "name") "familyName" =
      match strTruthy p.Surname with
      | some f => some (JVal.str f)
      | none => jGet (objGet e "name") "familyName" := by
  rw [merge_get_name]
  by_cases hN : ((strTruthy p.GivenName).isSome || (strTruthy p.Surname).isSome) = true
  · rw [if_pos hN]
    cases hF : strTruthy p.Surname with
    | some f =>
      cases hG : strTruthy p.GivenName <;>
        simp [hG, hF, jGet, objGet, objSet, alistGet_set_self, alistGet_set_ne]
    | none =>
      cases hG : strTruthy p.GivenName with
      | none => rw [hG, hF] at hN; simp at hN
      | some g =>
        cases hn : objGet e "name" with
        | none => simp [hG, hF, hn, jGet, objGet, objSet, alistGet_set_ne, alistGet]
        | some v =>
          cases v <;> simp [hG, hF, hn, jGet, objGet, objSet, alistGet_set_ne, alistGet]
  · rw [if_neg hN]
    have hF : strTruthy p.Surname = none := by
      cases hF2 : strTruthy p.Surname
      · rfl
      · rw [hF2] at hN; simp at hN
    simp [hF]

/-- An email element as the IdP sends it (optional value/type/primary). -/
def mkEmail (v t : Option String) (pr : Option Bool) : JVal :=
  JVal.obj ((match v with | some s => [("value", JVal.str s)] | none => [])
    ++ (match t with | some s => [("type", JVal.str s)] | none => [])
    ++ (match pr with | some b => [("primary", JVal.bool b)] | none => []))

/-- The `name` sub-record built from the two mapped sub-fields. -/
def nameObjOf (gN fN : Option String) : Option JVal :=
  match gN, fN with
  | none, none => none
  | some g, none => some (JVal.obj [("givenName", JVal.str g)])
  | none, some f => some (JVal.obj [("familyName", JVal.str f)])
  | some g, some f =>
    some (JVal.obj [("givenName", JVal.str g), ("familyName", JVal.str f)])

/-- A SCIM user resource whose fields lie within the mapped set: userName,
name.givenName, name.familyName, an emails list, displayName, boolean
active, externalId — each present or absent. -/
def mkScimUser (uN gN fN dN eId : Option String) (act : Option Bool)
    (ems : List (Option String × Option String × Option Bool)) : JObj :=
  (match uN with | some s => [("userName", JVal.str s)] | none => [])
  ++ (match nameObjOf gN fN with | some v => [("name", v)] | none => [])
  ++ [("emails", JVal.arr (ems.map (fun e => mkEmail e.1 e.2.1 e.2.2)))]
  ++ (match dN with | some s => [("displayName", JVal.str s)] | none => [])
  ++ (match act with | some b => [("active", JVal.bool b)] | none => [])
  ++ (match eId with | some s => [("externalId", JVal.str s)] | none => [])

theorem mk_get_userName (uN gN fN dN eId : Option String) (act : Option Bool)
    (ems : List (Option String × Option String × Option Bool)) :
    objGet (mkScimUser uN gN fN dN eId act ems) "userName" = uN.map JVal.str := by
  cases uN <;> cases gN <;> cases fN <;> cases dN <;> cases act <;> cases eId <;>
    simp [mkScimUser, nameObjOf, objGet, alistGet_append, alistGet]

theorem mk_get_name (uN gN fN dN eId : Option String) (act : Option Bool)
    (ems : List (Option String × Option String × Option Bool)) :
    objGet (mkScimUser uN gN fN dN eId act ems) "name" = nameObjOf gN fN := by
  cases uN <;> cases gN <;> cases fN <;> cases dN <;> cases act <;> cases eId <;>
    simp [mkScimUser, nameObjOf, objGet, alistGet_append, alistGet]

theorem mk_get_emails (uN gN fN dN eId : Option String) (act : Option Bool)
    (ems : List (Option String × Option String × Option Bool)) :
    objGet (mkScimUser uN gN fN dN eId act ems) "emails"
      = some (JVal.arr (ems.map (fun e => mkEmail e.1 e.2.1 e.2.2))) := by
  cases uN <;> cases gN <;> cases fN <;> cases dN <;> cases act <;> cases eId <;>
    simp [mkScimUser, nameObjOf, objGet, alistGet_append, alistGet]

theorem mk_get_displayName (uN gN fN dN eId : Option String) (act : Option Bool)
    (ems : List (Option String × Option String × Option Bool)) :
    objGet (mkScimUser uN gN fN dN eId act ems) "displayName" = dN.map JVal.str := by
  cases uN <;> cases gN <;> cases fN <;> cases dN <;> cases act <;> cases eId <;>
    simp [mkScimUser, nameObjOf, objGet, alistGet_append, alistGet]

theorem mk_get_active (uN gN fN dN eId : Option String) (act : Option Bool)
    (ems : List (Option String × Option String × Option Bool)) :
    objGet (mkScimUser uN gN fN dN eId act ems) "active" = act.map JVal.bool := by
  cases uN <;> cases gN <;> cases fN <;> cases dN <;> cases act <;> cases eId <;>
    simp [mkScimUser, nameObjOf, objGet, alistGet_append, alistGet]

theorem mk_get_externalId (uN gN fN dN eId : Option String) (act : Option Bool)
    (ems : List (Option String × Option String × Option Bool)) :
    objGet (mkScimUser uN gN fN dN eId act ems) "externalId" = eId.map JVal.str := by
  cases uN <;> cases gN <;> cases fN <;> cases dN <;> cases act <;> cases eId <;>
    simp [mkScimUser, nameObjOf, objGet, alistGet_append, alistGet]

theorem nameObj_givenName (gN fN : Option String) :
    jGet (nameObjOf gN fN) "givenName" = gN.map JVal.str := by
  cases gN <;> cases fN <;> simp [nameObjOf, jGet, objGet, alistGet]

theorem nameObj_familyName (gN fN : Option String) :
    jGet (nameObjOf gN fN) "familyName" = fN.map JVal.str := by
  cases gN <;> cases fN <;> simp [nameObjOf, jGet, objGet, alistGet]

theorem scimToAdParams_SamAccountName (u : JObj) (b : Option String) :
    (scimToAdParams u b).SamAccountName = truthyStr (objGet u "userName") := rfl

theorem scimToAdParams_GivenName (u : JObj) (b : Option String) :
    (scimToAdParams u b).GivenName = truthyStr (jGet (objGet u "name") "givenName") := rfl

theorem scimToAdParams_Surname (u : JObj) (b : Option String) :
    (scimToAdParams u b).Surname = truthyStr (jGet (objGet u "name") "familyName") := rfl

theorem scimToAdParams_EmailAddress (u : JObj) (b : Option String) :
    (scimToAdParams u b).EmailAddress = emailsExtract (objGet u "emails") := rfl

theorem scimToAdParams_DisplayName (u : JObj) (b : Option String) :
    (scimToAdParams u b).DisplayName = truthyStr (objGet u "displayName") := rfl

theorem scimToAdParams_Enabled (u : JObj) (b : Option String) :
    (scimToAdParams u b).Enabled =
      match objGet u "active" with
      | some (.bool b2) => some b2
      | _ => none := rfl

/-- A truthiness-filtered read of an optional string field round-trips. -/
theorem roundtrip_str_opt (o : Option String) :
    (match truthyStr (o.map JVal.str) with
     | some s => some (JVal.str s)
     | none => o.map JVal.str) = o.map JVal.str := by
  cases o with
  | none => rfl
  | some s => by_cases hs : s = "" <;> simp [truthyStr, hs]

/-- C4: the round trip of the attribute mapper.  For any SCIM user whose
fields lie within the mapped set, merging the directory parameter set
produced by scim→params back into the user via ad→scim yields a resource
equal to the original on the mapped subset: userName, name.givenName,
name.familyName, the primary email value, displayName, boolean active and
externalId. -/
theorem mapper_roundtrip (uN gN fN dN eId : Option String) (act : Option Bool)
    (ems : List (Option String × Option String × Option Bool)) :
    objGet (mergeAdIntoScim (mkScimUser uN gN fN dN eId act ems)
        (scimToAdParams (mkScimUser uN gN fN dN eId act ems) none)) "userName"
      = objGet (mkScimUser uN gN fN dN eId act ems) "userName"
    ∧ jGet (objGet (mergeAdIntoScim (mkScimUser uN gN fN dN eId act ems)
        (scimToAdParams (mkScimUser uN gN fN dN eId act ems) none)) "name") "givenName"
      = jGet (objGet (mkScimUser uN gN fN dN eId act ems) "name") "givenName"
    ∧ jGet (objGet (mergeAdIntoScim (mkScimUser uN gN fN dN eId act ems)
        (scimToAdParams (mkScimUser uN gN fN dN eId act ems) none)) "name") "familyName"
      = jGet (objGet (mkScimUser uN gN fN dN eId act ems) "name") "familyName"
    ∧ primaryEmailValue (mergeAdIntoScim (mkScimUser uN gN fN dN eId act ems)
        (scimToAdParams (mkScimUser uN gN fN dN eId act ems) none))
      = primaryEmailValue (mkScimUser uN gN fN dN eId act ems)
    ∧ objGet (mergeAdIntoScim (mkScimUser uN gN fN dN eId act ems)
        (scimToAdParams (mkScimUser uN gN fN dN eId act ems) none)) "displayName"
      = objGet (mkScimUser uN gN fN dN eId act ems) "displayName"
    ∧ objGet (mergeAdIntoScim (mkScimUser uN gN fN dN eId act ems)
        (scimToAdParams (mkScimUser uN gN fN dN eId act ems) none)) "active"
      = objGet (mkScimUser uN gN fN dN eId act ems) "active"
    ∧ objGet (mergeAdIntoScim (mkScimUser uN gN fN dN eId act ems)
        (scimToAdParams (mkScimUser uN gN fN dN eId act ems) none)) "externalId"
      = objGet (mkScimUser uN gN fN dN eId act ems) "externalId" := by
  refine ⟨?_, ?_, ?_, ?_, ?_, ?_, ?_⟩
  · rw [merge_get_userName, scimToAdParams_SamAccountName, strTruthy_truthyStr,
      mk_get_userName]
    exact roundtrip_str_opt uN
  · rw [merge_get_givenName, scimToAdParams_GivenName, strTruthy_truthyStr,
      mk_get_name, nameObj_givenName]
    exact roundtrip_str_opt gN
  · rw [merge_get_familyName, scimToAdParams_Surname, strTruthy_truthyStr,
      mk_get_name, nameObj_familyName]
    exact roundtrip_str_opt fN
  · unfold primaryEmailValue
    rw [merge_get_emails, scimToAdParams_EmailAddress]
    cases hpev : emailsExtract (objGet (mkScimUser uN gN fN dN eId act ems) "emails") with
    | none => simp [strTruthy, hpev]
    | some v =>
      have hne : v ≠ "" := emailsExtract_ne_empty hpev
      simp [strTruthy, hne, emailsExtract, jGet, objGet, alistGet, truthyStr]
  · rw [merge_get_displayName, scimToAdParams_DisplayName, strTruthy_truthyStr,
      mk_get_displayName]
    exact roundtrip_str_opt dN
  · rw [merge_get_active, scimToAdParams_Enabled, mk_get_active]
    cases act <;> simp
  · rw [merge_get_externalId]

end ScimAd
